import Mathlib

/-!
Verification of the AggTradesTool streaming aggregation core.

The Go sources are shallowly embedded: `float64` quantities are modelled as
exact rationals (`ℚ`), `int`/`int64` counters as `ℕ`, ISO `YYYY-MM-DD` date
keys (which Go compares lexicographically — chronological order on that
format) as naturals with their linear order, Go maps as functions into
`Option`, and the seeded deterministic PRNG (`rand.New(rand.NewSource(42))`)
as an abstract stream `gen : ℕ → ℕ` of draws together with a position counter
recording how many draws have been consumed.
-/

namespace AggTrades

namespace Whale

/-- `Thresholds` from `internal/whale/percentile.go`: P99 and P99.9 whale
thresholds. -/
structure Thresholds where
  P99 : ℚ
  P999 : ℚ
deriving DecidableEq, Repr

/-- `DefaultThresholds` from `internal/whale/percentile.go`: conservative
fallbacks used when no data is available. -/
def DefaultThresholds : Thresholds :=
  { P99 := 5, P999 := 20 }

/-- `percentile` from `internal/whale/percentile.go`: the p-th percentile of a
sorted slice by linear interpolation.  Go's `int(rank)` truncation agrees with
`Int.toNat ⌊rank⌋` for the non-negative ranks that arise from `p ≥ 0`. -/
def percentile (sorted : List ℚ) (p : ℚ) : ℚ :=
  if sorted.length = 0 then 0
  else
    let rank : ℚ := p / 100 * ((sorted.length : ℚ) - 1)
    let lower : ℕ := (⌊rank⌋).toNat
    let upper : ℕ := lower + 1
    if sorted.length ≤ upper then sorted.getD (sorted.length - 1) 0
    else
      let frac : ℚ := rank - (lower : ℚ)
      sorted.getD lower 0 + frac * (sorted.getD upper 0 - sorted.getD lower 0)

/-- The value `percentile` returns for a non-empty slice, as a function of the
real-valued rank alone.  `percentile S p = interpVal S (p/100 · (|S|−1))`. -/
def interpVal (S : List ℚ) (r : ℚ) : ℚ :=
  if S.length ≤ (⌊r⌋).toNat + 1 then S.getD (S.length - 1) 0
  else
    S.getD (⌊r⌋).toNat 0 +
      (r - ((⌊r⌋).toNat : ℚ)) * (S.getD ((⌊r⌋).toNat + 1) 0 - S.getD (⌊r⌋).toNat 0)

theorem percentile_eq_interpVal (S : List ℚ) (p : ℚ) (h : ¬ S.length = 0) :
    percentile S p = interpVal S (p / 100 * ((S.length : ℚ) - 1)) := by
  simp only [percentile, interpVal, if_neg h]

theorem sorted_getD_mono {S : List ℚ} (hS : S.Sorted (· ≤ ·)) {i j : ℕ}
    (hij : i ≤ j) (hj : j < S.length) : S.getD i 0 ≤ S.getD j 0 := by
  have hi : i < S.length := lt_of_le_of_lt hij hj
  rw [List.getD_eq_get _ _ hi, List.getD_eq_get _ _ hj]
  exact hS.rel_get_of_le (by simpa using hij)

theorem floor_toNat_cast_eq {r : ℚ} (hr : 0 ≤ r) : (((⌊r⌋).toNat : ℤ) : ℚ) = (⌊r⌋ : ℚ) := by
  rw [Int.toNat_of_nonneg (Int.floor_nonneg.mpr hr)]

theorem frac_nonneg {r : ℚ} (hr : 0 ≤ r) : 0 ≤ r - ((⌊r⌋).toNat : ℚ) := by
  have h := Int.floor_le r
  have hcast : (((⌊r⌋).toNat : ℤ) : ℚ) = (⌊r⌋ : ℚ) := floor_toNat_cast_eq hr
  push_cast at hcast ⊢
  linarith

theorem frac_lt_one {r : ℚ} (hr : 0 ≤ r) : r - ((⌊r⌋).toNat : ℚ) < 1 := by
  have h := Int.lt_floor_add_one r
  have hcast : (((⌊r⌋).toNat : ℤ) : ℚ) = (⌊r⌋ : ℚ) := floor_toNat_cast_eq hr
  push_cast at hcast ⊢
  linarith

/-- On a sorted non-empty slice, the interpolated value at a rank `r` with
`⌊r⌋.toNat + 1 < |S|` lies between the two bracketing samples. -/
theorem interp_between {S : List ℚ} (hS : S.Sorted (· ≤ ·)) {r : ℚ} (hr : 0 ≤ r)
    {l : ℕ} (hl : l = (⌊r⌋).toNat) (hlen : l + 1 < S.length) :
    S.getD l 0 ≤ S.getD l 0 + (r - (l : ℚ)) * (S.getD (l + 1) 0 - S.getD l 0) ∧
    S.getD l 0 + (r - (l : ℚ)) * (S.getD (l + 1) 0 - S.getD l 0) ≤ S.getD (l + 1) 0 := by
  have hdiff : 0 ≤ S.getD (l + 1) 0 - S.getD l 0 := by
    have := sorted_getD_mono hS (Nat.le_succ l) hlen
    linarith
  have hf0 : 0 ≤ r - (l : ℚ) := hl ▸ frac_nonneg hr
  have hf1 : r - (l : ℚ) < 1 := hl ▸ frac_lt_one hr
  constructor
  · nlinarith
  · nlinarith

theorem interpVal_mono {S : List ℚ} (hS : S.Sorted (· ≤ ·)) {r₁ r₂ : ℚ}
    (h0 : 0 ≤ r₁) (h12 : r₁ ≤ r₂) : interpVal S r₁ ≤ interpVal S r₂ := by
  have h02 : 0 ≤ r₂ := le_trans h0 h12
  have hl12 : (⌊r₁⌋).toNat ≤ (⌊r₂⌋).toNat := Int.toNat_le_toNat (Int.floor_mono h12)
  unfold interpVal
  split_ifs with hc1 hc2 hc2
  · exact le_refl _
  · omega
  · -- ⌊r₁⌋ + 1 < |S| and |S| ≤ ⌊r₂⌋ + 1 : left value ≤ S[⌊r₁⌋+1] ≤ S[|S|−1]
    have hlen1 : (⌊r₁⌋).toNat + 1 < S.length := by omega
    have hb := (interp_between hS h0 rfl hlen1).2
    have hlast : S.getD ((⌊r₁⌋).toNat + 1) 0 ≤ S.getD (S.length - 1) 0 :=
      sorted_getD_mono hS (by omega) (by omega)
    exact le_trans hb hlast
  · -- both ranks interpolate
    have hlen1 : (⌊r₁⌋).toNat + 1 < S.length := by omega
    have hlen2 : (⌊r₂⌋).toNat + 1 < S.length := by omega
    rcases Nat.lt_or_ge (⌊r₁⌋).toNat (⌊r₂⌋).toNat with hlt | hge
    · have h1 := (interp_between hS h0 rfl hlen1).2
      have h2 := (interp_between hS h02 rfl hlen2).1
      have hmid : S.getD ((⌊r₁⌋).toNat + 1) 0 ≤ S.getD (⌊r₂⌋).toNat 0 :=
        sorted_getD_mono hS (by omega) (by omega)
      linarith
    · have heq : (⌊r₂⌋).toNat = (⌊r₁⌋).toNat := le_antisymm hge hl12
      rw [heq]
      have hdiff : 0 ≤ S.getD ((⌊r₁⌋).toNat + 1) 0 - S.getD (⌊r₁⌋).toNat 0 := by
        have := sorted_getD_mono hS (Nat.le_succ (⌊r₁⌋).toNat) hlen1
        linarith
      have hr12 : r₁ - ((⌊r₁⌋).toNat : ℚ) ≤ r₂ - ((⌊r₁⌋).toNat : ℚ) := by linarith
      nlinarith

/-- C7: `percentile` on a sorted slice `S` of length `n` computes the
linear-interpolated percentile — with `rank = p/100 · (n−1)` and
`lower = ⌊rank⌋`, it returns `S[n−1]` when `lower + 1 ≥ n` and
`S[lower] + (rank − lower)·(S[lower+1] − S[lower])` otherwise — and in
particular `percentile [1,2,3,4] 50 = 2.5`, `percentile [1,2,3,4] 100 = 4`
and `percentile [1,2,3,4] 0 = 1`. -/
theorem percentile_linear_interpolation :
    (∀ (S : List ℚ) (p : ℚ),
        S.length ≤ (⌊p / 100 * ((S.length : ℚ) - 1)⌋).toNat + 1 →
          percentile S p = S.getD (S.length - 1) 0) ∧
    (∀ (S : List ℚ) (p : ℚ),
        (⌊p / 100 * ((S.length : ℚ) - 1)⌋).toNat + 1 < S.length →
          percentile S p =
            S.getD (⌊p / 100 * ((S.length : ℚ) - 1)⌋).toNat 0 +
              (p / 100 * ((S.length : ℚ) - 1) -
                  ((⌊p / 100 * ((S.length : ℚ) - 1)⌋).toNat : ℚ)) *
                (S.getD ((⌊p / 100 * ((S.length : ℚ) - 1)⌋).toNat + 1) 0 -
                  S.getD (⌊p / 100 * ((S.length : ℚ) - 1)⌋).toNat 0)) ∧
    percentile [1, 2, 3, 4] 50 = 5/2 ∧
    percentile [1, 2, 3, 4] 100 = 4 ∧
    percentile [1, 2, 3, 4] 0 = 1 := by
  refine ⟨?_, ?_, ?_, ?_, ?_⟩
  · intro S p h
    rcases Nat.eq_zero_or_pos S.length with h0 | h0
    · rw [List.length_eq_zero.mp h0]
      rfl
    · rw [percentile_eq_interpVal S p (by omega), interpVal, if_pos h]
  · intro S p h
    rw [percentile_eq_interpVal S p (by omega), interpVal, if_neg (by omega)]
  · norm_num [percentile]
  · norm_num [percentile]
    intro h
    exact absurd h (by omega)
  · norm_num [percentile]

theorem percentile_linear_interpolation_witness :
    ([1, 2, 3, 4] : List ℚ).length ≤
        (⌊(100 : ℚ) / 100 * ((([1, 2, 3, 4] : List ℚ).length : ℚ) - 1)⌋).toNat + 1 ∧
    percentile [1, 2, 3, 4] 100 = ([1, 2, 3, 4] : List ℚ).getD (([1, 2, 3, 4] : List ℚ).length - 1) 0 :=
  ⟨by norm_num; omega, percentile_linear_interpolation.1 [1, 2, 3, 4] 100 (by norm_num; omega)⟩

/-- C8: `percentile` is monotone in `p` on sorted input; in particular
`percentile S 99 ≤ percentile S 99.9`. -/
theorem percentile_monotone (S : List ℚ) (hS : S.Sorted (· ≤ ·)) {p q : ℚ}
    (hp : 0 ≤ p) (hpq : p ≤ q) : percentile S p ≤ percentile S q := by
  rcases Nat.eq_zero_or_pos S.length with h0 | h0
  · simp only [percentile, if_pos h0, le_refl]
  · have hne : ¬ S.length = 0 := by omega
    rw [percentile_eq_interpVal S p hne, percentile_eq_interpVal S q hne]
    have hn1 : (0 : ℚ) ≤ (S.length : ℚ) - 1 := by
      have : (1 : ℚ) ≤ (S.length : ℚ) := by exact_mod_cast h0
      linarith
    refine interpVal_mono hS ?_ ?_
    · exact mul_nonneg (div_nonneg hp (by norm_num)) hn1
    · have hmul := mul_le_mul_of_nonneg_right hpq hn1
      linarith

theorem percentile_monotone_witness :
    ([1, 2, 3, 4] : List ℚ).Sorted (· ≤ ·) ∧ (0 : ℚ) ≤ 99 ∧ (99 : ℚ) ≤ 999/10 ∧
    percentile [1, 2, 3, 4] 99 ≤ percentile [1, 2, 3, 4] (999/10) :=
  ⟨by norm_num, by norm_num, by norm_num,
    percentile_monotone [1, 2, 3, 4] (by norm_num) (by norm_num) (by norm_num)⟩

/-- `Reservoir` from `internal/whale/reservoir.go`.  The per-reservoir PRNG
`rand.New(rand.NewSource(42))` is deterministic, so it is modelled by an
abstract stream of draws `gen : ℕ → ℕ` (fixed for a run) together with `pos`,
the number of draws this reservoir has consumed so far; seeding (or
re-seeding) the PRNG resets `pos` to `0`.  `Int63n n` / `Intn n` are modelled
as the next draw reduced `mod n`, and `Float64() < a/b` as the next draw
reduced `mod b` falling below `a`. -/
structure Reservoir where
  samples : List ℚ
  capacity : ℕ
  count : ℕ
  pos : ℕ
deriving DecidableEq, Repr

/-- `NewReservoir` from `internal/whale/reservoir.go`. -/
def NewReservoir (capacity : ℕ) : Reservoir :=
  { samples := [], capacity := capacity, count := 0, pos := 0 }

/-- `NewReservoirFromSamples` from `internal/whale/reservoir.go`: restores
samples and count but creates a fresh PRNG from the fixed seed (`pos := 0`). -/
def NewReservoirFromSamples (capacity : ℕ) (samples : List ℚ) (count : ℕ) : Reservoir :=
  { samples := samples, capacity := capacity, count := count, pos := 0 }

/-- `Reservoir.Add` from `internal/whale/reservoir.go` (Algorithm R). -/
def Reservoir.Add (r : Reservoir) (gen : ℕ → ℕ) (value : ℚ) : Reservoir :=
  let count := r.count + 1
  if r.samples.length < r.capacity then
    { r with samples := r.samples ++ [value], count := count }
  else
    let j := gen r.pos % count
    let r' := { r with count := count, pos := r.pos + 1 }
    if j < r.capacity then { r' with samples := r'.samples.set j value } else r'

/-- `Reservoir.Samples` returns a (defensive copy of) the sample vector. -/
def Reservoir.Samples (r : Reservoir) : List ℚ :=
  r.samples

/-- `Reservoir.ExportState` from `internal/whale/reservoir.go`. -/
def Reservoir.ExportState (r : Reservoir) : List ℚ × ℕ :=
  (r.samples, r.count)

/-- The body of `Reservoir.Merge`'s loop: one candidate value from the other
reservoir.  The coin `Float64() < other.count/totalCount` consumes one draw;
a replacement index `Intn(capacity)` consumes one more. -/
def mergeStep (gen : ℕ → ℕ) (totalCount otherCount : ℕ) (acc : Reservoir) (val : ℚ) :
    Reservoir :=
  if gen acc.pos % totalCount < otherCount then
    let acc := { acc with pos := acc.pos + 1 }
    if acc.samples.length < acc.capacity then
      { acc with samples := acc.samples ++ [val] }
    else
      let j := gen acc.pos % acc.capacity
      { acc with samples := acc.samples.set j val, pos := acc.pos + 1 }
  else { acc with pos := acc.pos + 1 }

/-- `Reservoir.Merge` from `internal/whale/reservoir.go`. -/
def Reservoir.Merge (r : Reservoir) (gen : ℕ → ℕ) (other : Reservoir) : Reservoir :=
  if other.samples.length = 0 then r
  else
    let totalCount := r.count + other.count
    let r' := other.samples.foldl (mergeStep gen totalCount other.count) r
    { r' with count := totalCount }

/-- A sequence of operations applied to one reservoir. -/
inductive ReservoirOp where
  | add (value : ℚ)
  | merge (other : Reservoir)
deriving DecidableEq, Repr

/-- Run a sequence of `Add`/`Merge` operations against a reservoir. -/
def runOps (gen : ℕ → ℕ) (r : Reservoir) : List ReservoirOp → Reservoir
  | [] => r
  | ReservoirOp.add v :: rest => runOps gen (r.Add gen v) rest
  | ReservoirOp.merge other :: rest => runOps gen (r.Merge gen other) rest

/-- Add a list of values in order (`Reservoir.Add` repeatedly). -/
def addMany (gen : ℕ → ℕ) (r : Reservoir) (vs : List ℚ) : Reservoir :=
  vs.foldl (fun acc v => acc.Add gen v) r

/-- Merged reservoirs are themselves reservoirs: no more samples than items
counted. -/
def ReservoirOp.wf : ReservoirOp → Prop
  | ReservoirOp.add _ => True
  | ReservoirOp.merge other => other.samples.length ≤ other.count

theorem Add_capacity (r : Reservoir) (gen : ℕ → ℕ) (v : ℚ) :
    (r.Add gen v).capacity = r.capacity := by
  simp only [Reservoir.Add]
  split_ifs <;> rfl

theorem Add_count (r : Reservoir) (gen : ℕ → ℕ) (v : ℚ) :
    (r.Add gen v).count = r.count + 1 := by
  simp only [Reservoir.Add]
  split_ifs <;> rfl

theorem Add_length_le (r : Reservoir) (gen : ℕ → ℕ) (v : ℚ)
    (h : r.samples.length ≤ r.capacity ∧ r.samples.length ≤ r.count) :
    (r.Add gen v).samples.length ≤ (r.Add gen v).capacity ∧
    (r.Add gen v).samples.length ≤ (r.Add gen v).count := by
  simp only [Reservoir.Add]
  split_ifs with h1 h2 <;> simp_all [List.length_set] <;> omega

theorem Add_length_exact (r : Reservoir) (gen : ℕ → ℕ) (v : ℚ)
    (h : r.samples.length = min r.count r.capacity) :
    (r.Add gen v).samples.length = min (r.Add gen v).count (r.Add gen v).capacity := by
  simp only [Reservoir.Add]
  split_ifs with h1 h2 <;> simp_all [List.length_set] <;> omega

theorem mergeStep_capacity (gen : ℕ → ℕ) (t c : ℕ) (acc : Reservoir) (v : ℚ) :
    (mergeStep gen t c acc v).capacity = acc.capacity := by
  simp only [mergeStep]
  split_ifs <;> rfl

theorem mergeStep_count (gen : ℕ → ℕ) (t c : ℕ) (acc : Reservoir) (v : ℚ) :
    (mergeStep gen t c acc v).count = acc.count := by
  simp only [mergeStep]
  split_ifs <;> rfl

theorem mergeStep_length (gen : ℕ → ℕ) (t c : ℕ) (acc : Reservoir) (v : ℚ) :
    (mergeStep gen t c acc v).samples.length ≤ acc.samples.length + 1 ∧
    ((mergeStep gen t c acc v).samples.length ≤ acc.capacity ∨
      (mergeStep gen t c acc v).samples.length = acc.samples.length) := by
  simp only [mergeStep]
  split_ifs with h1 h2 <;> simp_all [List.length_set] <;> try omega

theorem foldMerge_capacity (gen : ℕ → ℕ) (t c : ℕ) :
    ∀ (l : List ℚ) (acc : Reservoir),
      (l.foldl (mergeStep gen t c) acc).capacity = acc.capacity
  | [], _ => rfl
  | v :: rest, acc => by
    rw [List.foldl_cons, foldMerge_capacity gen t c rest, mergeStep_capacity]

theorem foldMerge_count (gen : ℕ → ℕ) (t c : ℕ) :
    ∀ (l : List ℚ) (acc : Reservoir),
      (l.foldl (mergeStep gen t c) acc).count = acc.count
  | [], _ => rfl
  | v :: rest, acc => by
    rw [List.foldl_cons, foldMerge_count gen t c rest, mergeStep_count]

theorem foldMerge_length_le_cap (gen : ℕ → ℕ) (t c : ℕ) :
    ∀ (l : List ℚ) (acc : Reservoir), acc.samples.length ≤ acc.capacity →
      (l.foldl (mergeStep gen t c) acc).samples.length ≤ acc.capacity
  | [], _, h => h
  | v :: rest, acc, h => by
    rw [List.foldl_cons]
    have hstep := mergeStep_length gen t c acc v
    have hrec := foldMerge_length_le_cap gen t c rest (mergeStep gen t c acc v)
      (by rw [mergeStep_capacity]; rcases hstep.2 with h' | h' <;> omega)
    rw [mergeStep_capacity] at hrec
    exact hrec

theorem foldMerge_length_le_add (gen : ℕ → ℕ) (t c : ℕ) :
    ∀ (l : List ℚ) (acc : Reservoir),
      (l.foldl (mergeStep gen t c) acc).samples.length ≤ acc.samples.length + l.length
  | [], _ => by simp
  | v :: rest, acc => by
    rw [List.foldl_cons]
    have hstep := (mergeStep_length gen t c acc v).1
    have hrec := foldMerge_length_le_add gen t c rest (mergeStep gen t c acc v)
    simp only [List.length_cons]
    omega

theorem Merge_capacity (r : Reservoir) (gen : ℕ → ℕ) (other : Reservoir) :
    (r.Merge gen other).capacity = r.capacity := by
  unfold Reservoir.Merge
  split_ifs
  · rfl
  · exact foldMerge_capacity ..

theorem Merge_count_ge (r : Reservoir) (gen : ℕ → ℕ) (other : Reservoir) :
    r.count ≤ (r.Merge gen other).count := by
  unfold Reservoir.Merge
  split_ifs
  · exact le_refl _
  · simp only []
    omega

theorem Merge_length_le (r : Reservoir) (gen : ℕ → ℕ) (other : Reservoir)
    (h : r.samples.length ≤ r.capacity ∧ r.samples.length ≤ r.count)
    (hother : other.samples.length ≤ other.count) :
    (r.Merge gen other).samples.length ≤ (r.Merge gen other).capacity ∧
    (r.Merge gen other).samples.length ≤ (r.Merge gen other).count := by
  unfold Reservoir.Merge
  split_ifs with h0
  · exact h
  · constructor
    · simp only []
      rw [foldMerge_capacity]
      exact foldMerge_length_le_cap gen _ _ other.samples r h.1
    · simp only []
      have := foldMerge_length_le_add gen (r.count + other.count) other.count other.samples r
      omega

theorem runOps_append (gen : ℕ → ℕ) (r : Reservoir) (l₁ l₂ : List ReservoirOp) :
    runOps gen r (l₁ ++ l₂) = runOps gen (runOps gen r l₁) l₂ := by
  induction l₁ generalizing r with
  | nil => rfl
  | cons op rest ih =>
    cases op <;> simp only [List.cons_append, runOps] <;> exact ih _

theorem runOps_count_mono (gen : ℕ → ℕ) (r : Reservoir) (ops : List ReservoirOp) :
    r.count ≤ (runOps gen r ops).count := by
  induction ops generalizing r with
  | nil => exact le_refl _
  | cons op rest ih =>
    cases op with
    | add v =>
      have h1 : r.count ≤ (r.Add gen v).count := by rw [Add_count]; omega
      exact le_trans h1 (ih _)
    | merge other => exact le_trans (Merge_count_ge r gen other) (ih _)

theorem runOps_capacity (gen : ℕ → ℕ) (r : Reservoir) (ops : List ReservoirOp) :
    (runOps gen r ops).capacity = r.capacity := by
  induction ops generalizing r with
  | nil => rfl
  | cons op rest ih =>
    cases op with
    | add v => rw [runOps, ih, Add_capacity]
    | merge other => rw [runOps, ih, Merge_capacity]

theorem runOps_length_le (gen : ℕ → ℕ) (r : Reservoir) (ops : List ReservoirOp)
    (hops : ∀ op ∈ ops, op.wf)
    (h : r.samples.length ≤ r.capacity ∧ r.samples.length ≤ r.count) :
    (runOps gen r ops).samples.length ≤ (runOps gen r ops).capacity ∧
    (runOps gen r ops).samples.length ≤ (runOps gen r ops).count := by
  induction ops generalizing r with
  | nil => exact h
  | cons op rest ih =>
    cases op with
    | add v =>
      exact ih _ (fun o ho => hops o (List.mem_cons_of_mem _ ho)) (Add_length_le r gen v h)
    | merge other =>
      have hwf : other.samples.length ≤ other.count := hops _ (List.mem_cons_self _ _)
      exact ih _ (fun o ho => hops o (List.mem_cons_of_mem _ ho))
        (Merge_length_le r gen other h hwf)

theorem runOps_length_exact (gen : ℕ → ℕ) (r : Reservoir) (ops : List ReservoirOp)
    (hadd : ∀ op ∈ ops, ∃ v, op = ReservoirOp.add v)
    (h : r.samples.length = min r.count r.capacity) :
    (runOps gen r ops).samples.length =
      min (runOps gen r ops).count (runOps gen r ops).capacity := by
  induction ops generalizing r with
  | nil => exact h
  | cons op rest ih =>
    obtain ⟨v, rfl⟩ := hadd op (List.mem_cons_self _ _)
    exact ih _ (fun o ho => hadd o (List.mem_cons_of_mem _ ho)) (Add_length_exact r gen v h)

/-- C5 counterexample: merging a one-sample, count-1 reservoir into a
one-sample, count-1 reservoir of capacity 2 can *exclude* the other's sample
(the inclusion coin `Float64() < other.count/totalCount = 1/2` can fail), after
which `count = 2` but only one sample is stored: the sample-vector length is
not `min(count, k)` after `Merge`. -/
theorem reservoir_length_min_counterexample :
    (runOps (fun _ => 1) (NewReservoir 2)
        [ReservoirOp.add 10,
          ReservoirOp.merge (runOps (fun _ => 1) (NewReservoir 2) [ReservoirOp.add 20])]).samples.length ≠
      min
        (runOps (fun _ => 1) (NewReservoir 2)
          [ReservoirOp.add 10,
            ReservoirOp.merge (runOps (fun _ => 1) (NewReservoir 2) [ReservoirOp.add 20])]).count
        (runOps (fun _ => 1) (NewReservoir 2)
          [ReservoirOp.add 10,
            ReservoirOp.merge (runOps (fun _ => 1) (NewReservoir 2) [ReservoirOp.add 20])]).capacity := by
  decide

/-- C5 (amended): under every sequence of `Add` and `Merge` operations from a
fresh reservoir of capacity `k` (each merged reservoir itself having no more
samples than its count), the `count` field is non-decreasing along the run and
the sample-vector length is *at most* `min(count, k)`; it equals `min(count, k)`
whenever the sequence consists of `Add` operations only (a `Merge` may include
each of the other's samples only with probability
`other.count/(self.count+other.count)` and so can leave the vector short). -/
theorem reservoir_count_mono_length_le (gen : ℕ → ℕ) (k : ℕ) (ops : List ReservoirOp)
    (hops : ∀ op ∈ ops, op.wf) :
    (∀ n : ℕ, (runOps gen (NewReservoir k) (ops.take n)).count ≤
        (runOps gen (NewReservoir k) ops).count) ∧
    (runOps gen (NewReservoir k) ops).samples.length ≤
      min (runOps gen (NewReservoir k) ops).count k ∧
    ((∀ op ∈ ops, ∃ v, op = ReservoirOp.add v) →
      (runOps gen (NewReservoir k) ops).samples.length =
        min (runOps gen (NewReservoir k) ops).count k) := by
  refine ⟨?_, ?_, ?_⟩
  · intro n
    conv_rhs => rw [← List.take_append_drop n ops]
    rw [runOps_append]
    exact runOps_count_mono gen _ _
  · have h := runOps_length_le gen (NewReservoir k) ops hops (by constructor <;> simp [NewReservoir])
    have hcap : (runOps gen (NewReservoir k) ops).capacity = k := runOps_capacity gen _ _
    rw [hcap] at h
    omega
  · intro hadd
    have h := runOps_length_exact gen (NewReservoir k) ops hadd (by simp [NewReservoir])
    have hcap := runOps_capacity gen (NewReservoir k) ops
    rw [hcap] at h
    exact h

theorem reservoir_count_mono_length_le_witness :
    (∀ op ∈ [ReservoirOp.add 10, ReservoirOp.add 20, ReservoirOp.add 30], op.wf) ∧
    (runOps (fun _ => 0) (NewReservoir 2)
        [ReservoirOp.add 10, ReservoirOp.add 20, ReservoirOp.add 30]).samples.length ≤
      min
        (runOps (fun _ => 0) (NewReservoir 2)
          [ReservoirOp.add 10, ReservoirOp.add 20, ReservoirOp.add 30]).count 2 :=
  ⟨by intro op h; fin_cases h <;> trivial,
    (reservoir_count_mono_length_le (fun _ => 0) 2
      [ReservoirOp.add 10, ReservoirOp.add 20, ReservoirOp.add 30]
      (by intro op h; fin_cases h <;> trivial)).2.1⟩

/-- C6 counterexample: a capacity-1 reservoir fed `[10, 20]` consumes one PRNG
draw; exporting its state, rebuilding it with `NewReservoirFromSamples` (which
re-seeds the PRNG rather than restoring its position) and adding `30` replays
the stream from the start and keeps a different sample than adding `30`
directly. -/
theorem reservoir_resume_counterexample :
    (addMany (fun n => n)
        (NewReservoirFromSamples
          ((addMany (fun n => n) (NewReservoir 1) [10, 20]).capacity)
          ((addMany (fun n => n) (NewReservoir 1) [10, 20]).ExportState).1
          ((addMany (fun n => n) (NewReservoir 1) [10, 20]).ExportState).2) [30]).samples ≠
      (addMany (fun n => n) (addMany (fun n => n) (NewReservoir 1) [10, 20]) [30]).samples := by
  decide

/-- C6 (amended): exporting a reservoir's state and rebuilding it with
`NewReservoirFromSamples` preserves the samples and the count; further `Add`s
then coincide with adding to the original *provided* the original reservoir had
consumed no PRNG draws before the export (e.g. it never reached capacity) —
because the rebuilt reservoir's PRNG restarts from the fixed seed, the streams
may otherwise diverge. -/
theorem reservoir_resume_preserves (gen : ℕ → ℕ) (r : Reservoir) (vs : List ℚ) :
    (NewReservoirFromSamples r.capacity (r.ExportState).1 (r.ExportState).2).samples =
      r.samples ∧
    (NewReservoirFromSamples r.capacity (r.ExportState).1 (r.ExportState).2).count =
      r.count ∧
    (r.pos = 0 →
      addMany gen (NewReservoirFromSamples r.capacity (r.ExportState).1 (r.ExportState).2) vs =
        addMany gen r vs) := by
  refine ⟨rfl, rfl, fun hpos => ?_⟩
  have : NewReservoirFromSamples r.capacity (r.ExportState).1 (r.ExportState).2 = r := by
    cases r
    simp_all [NewReservoirFromSamples, Reservoir.ExportState]
  rw [this]

theorem reservoir_resume_preserves_witness :
    (Reservoir.mk [10] 2 1 0).pos = 0 ∧
    addMany (fun _ => 0)
        (NewReservoirFromSamples (Reservoir.mk [10] 2 1 0).capacity
          ((Reservoir.mk [10] 2 1 0).ExportState).1
          ((Reservoir.mk [10] 2 1 0).ExportState).2) [20] =
      addMany (fun _ => 0) (Reservoir.mk [10] 2 1 0) [20] :=
  ⟨rfl, (reservoir_resume_preserves (fun _ => 0) (Reservoir.mk [10] 2 1 0) [20]).2.2 rfl⟩

/-- Date keys are ISO `YYYY-MM-DD` strings which the Go code compares with the
lexicographic string order — on that format identical to chronological order.
They are modelled as naturals with their linear order. -/
abbrev Date := ℕ

/-- `RollingPercentile` from `internal/whale/percentile.go`.  The mutex is
concurrency plumbing and is not modelled; the Go map `dailySamples` is a
function into `Option`.  The bootstrap buffer is irrelevant to `GetThresholds`
and `PruneOldDates` and is omitted here. -/
structure RollingPercentile where
  windowDays : ℕ
  samplesPerDay : ℕ
  dailySamples : Date → Option Reservoir
  dateOrder : List Date
  bootstrapThresholds : Thresholds
  bootstrapped : Bool

/-- The sample vector `GetThresholds` reads for a date: `reservoir.Samples()`
when the map has the date, nothing otherwise. -/
def dailySampleList (rp : RollingPercentile) (d : Date) : List ℚ :=
  match rp.dailySamples d with
  | some res => res.Samples
  | none => []

/-- The last `n` entries of a list (`windowDates[len(windowDates)-windowDays:]`). -/
def lastN (n : ℕ) (l : List Date) : List Date :=
  if n < l.length then l.drop (l.length - n) else l

/-- The window of dates `GetThresholds` uses for a query date: the leading run
of `dateOrder` strictly before `date` (the loop breaks at the first `d ≥ date`),
restricted to the last `windowDays` entries. -/
def windowDatesOf (rp : RollingPercentile) (date : Date) : List Date :=
  lastN rp.windowDays (rp.dateOrder.takeWhile (fun d => decide (d < date)))

/-- All samples collected from the window's reservoirs, in window order. -/
def windowSamplesOf (rp : RollingPercentile) (date : Date) : List ℚ :=
  (windowDatesOf rp date).foldl (fun acc d => acc ++ dailySampleList rp d) []

/-- `RollingPercentile.GetThresholds` from `internal/whale/percentile.go`. -/
def GetThresholds (rp : RollingPercentile) (date : Date) : Thresholds :=
  let windowDates := windowDatesOf rp date
  if windowDates.length = 0 then
    if rp.bootstrapped then rp.bootstrapThresholds else DefaultThresholds
  else
    let allSamples := windowSamplesOf rp date
    if allSamples.length = 0 then
      if rp.bootstrapped then rp.bootstrapThresholds else DefaultThresholds
    else
      let sorted := allSamples.mergeSort (fun a b => decide (a ≤ b))
      { P99 := percentile sorted 99, P999 := percentile sorted (999/10) }

/-- The dates of `dateOrder` strictly earlier than the query date. -/
def strictlyEarlier (rp : RollingPercentile) (date : Date) : List Date :=
  rp.dateOrder.filter (fun d => decide (d < date))

/-- The data C1 says `GetThresholds` may depend on (beyond the bootstrap
fields): the last `windowDays` strictly-earlier dates together with their
reservoirs' sample vectors. -/
def windowView (rp : RollingPercentile) (date : Date) : List (Date × List ℚ) :=
  (lastN rp.windowDays (strictlyEarlier rp date)).map fun d => (d, dailySampleList rp d)

/-- The Go loop over the stored dates (`PruneOldDates`): starting at index `i`
into a date order of total length `n`, count how many leading entries are both
strictly earlier than the current date and positioned so that more than
`windowDays + 1` entries remain from them onwards. -/
def cutoffAux (currentDate : Date) (w n : ℕ) : List Date → ℕ → ℕ
  | [], _ => 0
  | d :: rest, i =>
    if d < currentDate ∧ w + 1 < n - i then cutoffAux currentDate w n rest (i + 1) + 1
    else 0

/-- The index up to which `PruneOldDates` deletes dates. -/
def pruneCutoff (rp : RollingPercentile) (currentDate : Date) : ℕ :=
  cutoffAux currentDate rp.windowDays rp.dateOrder.length rp.dateOrder 0

/-- `RollingPercentile.PruneOldDates` from `internal/whale/percentile.go`:
deletes map entries for the first `cutoff` dates of `dateOrder` and drops them
from `dateOrder`. -/
def PruneOldDates (rp : RollingPercentile) (currentDate : Date) : RollingPercentile :=
  let cutoff := pruneCutoff rp currentDate
  { rp with
    dailySamples := fun d =>
      if d ∈ rp.dateOrder.take cutoff then none else rp.dailySamples d,
    dateOrder := rp.dateOrder.drop cutoff }

theorem takeWhile_lt_eq_filter {l : List Date} (h : l.Sorted (· ≤ ·)) (date : Date) :
    l.takeWhile (fun d => decide (d < date)) = l.filter (fun d => decide (d < date)) := by
  induction l with
  | nil => rfl
  | cons a t ih =>
    rw [List.sorted_cons] at h
    by_cases ha : a < date
    · rw [List.takeWhile_cons_of_pos (by simpa using ha),
        List.filter_cons_of_pos (by simpa using ha), ih h.2]
    · rw [List.takeWhile_cons_of_neg (by simpa using ha),
        List.filter_cons_of_neg (by simpa using ha)]
      symm
      rw [List.filter_eq_nil_iff]
      intro b hb
      have hab : a ≤ b := h.1 b hb
      have hbd : ¬ b < date := fun hlt => ha (lt_of_le_of_lt hab hlt)
      simpa using hbd

theorem windowView_fst (rp : RollingPercentile) (date : Date)
    (h : rp.dateOrder.Sorted (· ≤ ·)) :
    (windowView rp date).map Prod.fst = windowDatesOf rp date := by
  unfold windowView windowDatesOf strictlyEarlier
  rw [takeWhile_lt_eq_filter h, List.map_map]
  have hid : (Prod.fst ∘ fun d => (d, dailySampleList rp d)) = id := rfl
  rw [hid, List.map_id]

theorem windowSamples_eq_view_fold (rp : RollingPercentile) (date : Date)
    (h : rp.dateOrder.Sorted (· ≤ ·)) :
    windowSamplesOf rp date = (windowView rp date).foldl (fun acc p => acc ++ p.2) [] := by
  unfold windowSamplesOf windowView windowDatesOf strictlyEarlier
  rw [takeWhile_lt_eq_filter h, List.foldl_map]

theorem foldl_append_eq_nil {α : Type} (f : α → List ℚ) :
    ∀ (l : List α) (acc : List ℚ), (∀ a ∈ l, f a = []) →
      l.foldl (fun acc a => acc ++ f a) acc = acc
  | [], _, _ => rfl
  | a :: t, acc, h => by
    rw [List.foldl_cons, h a (List.mem_cons_self _ _), List.append_nil]
    exact foldl_append_eq_nil f t acc fun b hb => h b (List.mem_cons_of_mem _ hb)

theorem mem_windowDates (rp : RollingPercentile) (date : Date) {d : Date}
    (hd : d ∈ windowDatesOf rp date) : d ∈ rp.dateOrder ∧ d < date := by
  unfold windowDatesOf lastN at hd
  have hd' : d ∈ rp.dateOrder.takeWhile (fun d => decide (d < date)) := by
    split at hd
    · exact List.mem_of_mem_drop hd
    · exact hd
  constructor
  · exact (List.takeWhile_sublist _).subset hd'
  · simpa using List.mem_takeWhile_imp hd'

/-- C1: `GetThresholds date` depends only on the bootstrap fields and on the
last `windowDays` dates strictly earlier than `date` together with their
reservoirs' samples (on sorted date orders, as maintained by `AddSample`); and
when no strictly earlier stored date has any samples it returns the bootstrap
thresholds if `bootstrapped`, else the conservative defaults
`P99 = 5.0, P999 = 20.0`. -/
theorem getThresholds_no_lookahead :
    (∀ (rp₁ rp₂ : RollingPercentile) (date : Date),
        rp₁.dateOrder.Sorted (· ≤ ·) → rp₂.dateOrder.Sorted (· ≤ ·) →
        rp₁.bootstrapped = rp₂.bootstrapped →
        rp₁.bootstrapThresholds = rp₂.bootstrapThresholds →
        windowView rp₁ date = windowView rp₂ date →
        GetThresholds rp₁ date = GetThresholds rp₂ date) ∧
    (∀ (rp : RollingPercentile) (date : Date),
        (∀ d ∈ rp.dateOrder, d < date → dailySampleList rp d = []) →
        GetThresholds rp date =
          if rp.bootstrapped then rp.bootstrapThresholds else DefaultThresholds) := by
  constructor
  · intro rp₁ rp₂ date hs₁ hs₂ hb ht hview
    have hwd : windowDatesOf rp₁ date = windowDatesOf rp₂ date := by
      rw [← windowView_fst rp₁ date hs₁, ← windowView_fst rp₂ date hs₂, hview]
    have hws : windowSamplesOf rp₁ date = windowSamplesOf rp₂ date := by
      rw [windowSamples_eq_view_fold rp₁ date hs₁, windowSamples_eq_view_fold rp₂ date hs₂,
        hview]
    simp only [GetThresholds]
    rw [hwd, hws, hb, ht]
  · intro rp date hnone
    have hempty : windowSamplesOf rp date = [] := by
      unfold windowSamplesOf
      exact foldl_append_eq_nil _ _ _ fun d hd =>
        hnone d (mem_windowDates rp date hd).1 (mem_windowDates rp date hd).2
    simp only [GetThresholds]
    by_cases h0 : (windowDatesOf rp date).length = 0
    · rw [if_pos h0]
    · rw [if_neg h0, hempty]
      simp

/-- A bootstrapped rolling window with two stored dates but no reservoirs. -/
def rpBootstrapped : RollingPercentile :=
  { windowDays := 7, samplesPerDay := 10000, dailySamples := fun _ => none,
    dateOrder := [0, 1], bootstrapThresholds := { P99 := 1, P999 := 2 },
    bootstrapped := true }

theorem getThresholds_no_lookahead_witness :
    (∀ d ∈ rpBootstrapped.dateOrder, d < 5 → dailySampleList rpBootstrapped d = []) ∧
    GetThresholds rpBootstrapped 5 =
      if rpBootstrapped.bootstrapped then rpBootstrapped.bootstrapThresholds
      else DefaultThresholds :=
  ⟨fun _ _ _ => rfl, getThresholds_no_lookahead.2 rpBootstrapped 5 fun _ _ _ => rfl⟩

theorem cutoffAux_le_length (c : Date) (w n : ℕ) :
    ∀ (l : List Date) (i : ℕ), cutoffAux c w n l i ≤ l.length
  | [], _ => Nat.le_refl _
  | d :: rest, i => by
    unfold cutoffAux
    split_ifs with h
    · have := cutoffAux_le_length c w n rest (i + 1)
      simp only [List.length_cons]
      omega
    · simp

theorem cutoffAux_bound (c : Date) (w n : ℕ) :
    ∀ (l : List Date) (i : ℕ),
      cutoffAux c w n l i = 0 ∨ i + cutoffAux c w n l i + (w + 1) ≤ n
  | [], _ => Or.inl rfl
  | d :: rest, i => by
    unfold cutoffAux
    split_ifs with h
    · right
      rcases cutoffAux_bound c w n rest (i + 1) with h0 | hb
      · rw [h0]
        omega
      · omega
    · exact Or.inl rfl

theorem take_cutoffAux_lt (c : Date) (w n : ℕ) :
    ∀ (l : List Date) (i : ℕ), ∀ d ∈ l.take (cutoffAux c w n l i), d < c
  | [], _ => by simp
  | e :: rest, i => by
    unfold cutoffAux
    split_ifs with h
    · intro d hd
      rw [List.take_succ_cons] at hd
      rcases List.mem_cons.mp hd with rfl | hd'
      · exact h.1
      · exact take_cutoffAux_lt c w n rest (i + 1) d hd'
    · intro d hd
      simp at hd

/-- A rolling window with `windowDays = 1` and four stored dates. -/
def rpFourDays : RollingPercentile :=
  { windowDays := 1, samplesPerDay := 10000, dailySamples := fun _ => none,
    dateOrder := [0, 1, 2, 3], bootstrapThresholds := { P99 := 5, P999 := 20 },
    bootstrapped := false }

/-- C9 counterexample: with `windowDays = 1`, date order `[0,1,2,3]` and
current date `3`, three dates strictly earlier than `3` are present, yet after
`PruneOldDates 3` only one date earlier than `3` remains — date `1`, among the
last `W+1` earlier dates, was deleted.  The `windowDays + 1` retention buffer
counts the current date itself, not only days ending before it. -/
theorem pruneOldDates_counterexample :
    rpFourDays.windowDays + 1 ≤
        (rpFourDays.dateOrder.filter fun d => decide (d < 3)).length ∧
    ((PruneOldDates rpFourDays 3).dateOrder.filter fun d => decide (d < 3)).length <
        rpFourDays.windowDays + 1 ∧
    1 ∈ rpFourDays.dateOrder ∧ (1 : Date) < 3 ∧
    1 ∉ (PruneOldDates rpFourDays 3).dateOrder := by
  decide

/-- C9 (amended): `PruneOldDates D` keeps a suffix of the date order, deleting
only a prefix of dates strictly earlier than `D`; at least
`min(|dateOrder|, windowDays + 1)` entries remain (the retained `W+1` buffer
may include dates at or after `D`, so fewer than `W+1` days ending before `D`
may remain); and no date at or after `D` is ever deleted — its map entry and
its place in the date order survive. -/
theorem pruneOldDates_retains (rp : RollingPercentile) (currentDate : Date) :
    (PruneOldDates rp currentDate).dateOrder =
      rp.dateOrder.drop (pruneCutoff rp currentDate) ∧
    (∀ d ∈ rp.dateOrder.take (pruneCutoff rp currentDate), d < currentDate) ∧
    min rp.dateOrder.length (rp.windowDays + 1) ≤
      (PruneOldDates rp currentDate).dateOrder.length ∧
    (∀ d : Date, ¬ d < currentDate →
      (PruneOldDates rp currentDate).dailySamples d = rp.dailySamples d ∧
      (d ∈ rp.dateOrder → d ∈ (PruneOldDates rp currentDate).dateOrder)) := by
  refine ⟨rfl, ?_, ?_, ?_⟩
  · exact take_cutoffAux_lt currentDate rp.windowDays rp.dateOrder.length rp.dateOrder 0
  · have hb := cutoffAux_bound currentDate rp.windowDays rp.dateOrder.length rp.dateOrder 0
    have hle := cutoffAux_le_length currentDate rp.windowDays rp.dateOrder.length rp.dateOrder 0
    simp only [PruneOldDates, List.length_drop, pruneCutoff]
    rcases hb with h0 | h1 <;> omega
  · intro d hd
    have hnot : d ∉ rp.dateOrder.take (pruneCutoff rp currentDate) := fun hmem =>
      hd (take_cutoffAux_lt currentDate rp.windowDays rp.dateOrder.length rp.dateOrder 0 d hmem)
    constructor
    · simp only [PruneOldDates]
      rw [if_neg hnot]
    · intro hmem
      simp only [PruneOldDates]
      have hsplit : rp.dateOrder =
          rp.dateOrder.take (pruneCutoff rp currentDate) ++
            rp.dateOrder.drop (pruneCutoff rp currentDate) :=
        (List.take_append_drop _ _).symm
      rcases List.mem_append.mp (hsplit ▸ hmem) with h1 | h2
      · exact absurd h1 hnot
      · exact h2

theorem pruneOldDates_retains_witness :
    ¬ (3 : Date) < 3 ∧
    (PruneOldDates rpFourDays 3).dailySamples 3 = rpFourDays.dailySamples 3 :=
  ⟨by decide, ((pruneOldDates_retains rpFourDays 3).2.2.2 3 (by decide)).1⟩

end Whale

namespace Aggregator

/-- `HourlyBar` from `internal/aggregator/stats.go`.  Volumes and prices are
exact rationals; the `int64` counters are naturals (they are only ever
incremented). -/
structure HourlyBar where
  BuyVol : ℚ := 0
  SellVol : ℚ := 0
  NTrades : ℕ := 0
  BuyCount : ℕ := 0
  SellCount : ℕ := 0
  WhaleBuyVolP99 : ℚ := 0
  WhaleSellVolP99 : ℚ := 0
  WhaleBuyCountP99 : ℕ := 0
  WhaleSellCountP99 : ℕ := 0
  WhaleBuyVolP999 : ℚ := 0
  WhaleSellVolP999 : ℚ := 0
  WhaleBuyCountP999 : ℕ := 0
  WhaleSellCountP999 : ℕ := 0
  VolFirst30Min : ℚ := 0
  VolLast30Min : ℚ := 0
  BuyVolUSD : ℚ := 0
  SellVolUSD : ℚ := 0
  MaxTradeSize : ℚ := 0
  VWAP : ℚ := 0
  PriceStd : ℚ := 0
  sumPriceQty : ℚ := 0
  sumQty : ℚ := 0
  sumPriceSqQty : ℚ := 0
deriving DecidableEq, Repr

/-- `NewHourlyBar` from `internal/aggregator/stats.go`: the zero bar. -/
def NewHourlyBar : HourlyBar := {}

/-- `HourlyBar.AddTrade` from `internal/aggregator/stats.go`. -/
def HourlyBar.AddTrade (h : HourlyBar) (price qty : ℚ) (isBuy : Bool) (minute : ℕ)
    (isWhaleP99 isWhaleP999 : Bool) : HourlyBar :=
  let dollarVol := price * qty
  let h :=
    if isBuy then
      { h with BuyVol := h.BuyVol + qty, BuyCount := h.BuyCount + 1,
               BuyVolUSD := h.BuyVolUSD + dollarVol }
    else
      { h with SellVol := h.SellVol + qty, SellCount := h.SellCount + 1,
               SellVolUSD := h.SellVolUSD + dollarVol }
  let h := { h with NTrades := h.NTrades + 1 }
  let h :=
    if isWhaleP99 then
      if isBuy then
        { h with WhaleBuyVolP99 := h.WhaleBuyVolP99 + qty,
                 WhaleBuyCountP99 := h.WhaleBuyCountP99 + 1 }
      else
        { h with WhaleSellVolP99 := h.WhaleSellVolP99 + qty,
                 WhaleSellCountP99 := h.WhaleSellCountP99 + 1 }
    else h
  let h :=
    if isWhaleP999 then
      if isBuy then
        { h with WhaleBuyVolP999 := h.WhaleBuyVolP999 + qty,
                 WhaleBuyCountP999 := h.WhaleBuyCountP999 + 1 }
      else
        { h with WhaleSellVolP999 := h.WhaleSellVolP999 + qty,
                 WhaleSellCountP999 := h.WhaleSellCountP999 + 1 }
    else h
  let h :=
    if minute < 30 then { h with VolFirst30Min := h.VolFirst30Min + qty }
    else { h with VolLast30Min := h.VolLast30Min + qty }
  let h := if h.MaxTradeSize < qty then { h with MaxTradeSize := qty } else h
  { h with sumPriceQty := h.sumPriceQty + price * qty, sumQty := h.sumQty + qty,
           sumPriceSqQty := h.sumPriceSqQty + price * price * qty }

/-- One trade as it reaches `Bar.AddTrade`: price, quantity, side, minute and
the two whale flags. -/
structure TradeInput where
  price : ℚ
  qty : ℚ
  isBuy : Bool
  minute : ℕ
  isWhaleP99 : Bool
  isWhaleP999 : Bool

/-- A bar built from the zero bar by a sequence of `AddTrade` calls. -/
def buildBar (ts : List TradeInput) : HourlyBar :=
  ts.foldl
    (fun b t => b.AddTrade t.price t.qty t.isBuy t.minute t.isWhaleP99 t.isWhaleP999)
    NewHourlyBar

theorem AddTrade_NTrades (b : HourlyBar) (price qty : ℚ) (isBuy : Bool) (minute : ℕ)
    (w99 w999 : Bool) :
    (b.AddTrade price qty isBuy minute w99 w999).NTrades = b.NTrades + 1 := by
  simp only [HourlyBar.AddTrade]
  split_ifs <;> rfl

theorem AddTrade_BuyCount (b : HourlyBar) (price qty : ℚ) (isBuy : Bool) (minute : ℕ)
    (w99 w999 : Bool) :
    (b.AddTrade price qty isBuy minute w99 w999).BuyCount =
      b.BuyCount + (if isBuy then 1 else 0) := by
  simp only [HourlyBar.AddTrade]
  split_ifs <;> rfl

theorem AddTrade_SellCount (b : HourlyBar) (price qty : ℚ) (isBuy : Bool) (minute : ℕ)
    (w99 w999 : Bool) :
    (b.AddTrade price qty isBuy minute w99 w999).SellCount =
      b.SellCount + (if isBuy then 0 else 1) := by
  simp only [HourlyBar.AddTrade]
  split_ifs <;> rfl

theorem AddTrade_BuyVol (b : HourlyBar) (price qty : ℚ) (isBuy : Bool) (minute : ℕ)
    (w99 w999 : Bool) :
    (b.AddTrade price qty isBuy minute w99 w999).BuyVol =
      b.BuyVol + (if isBuy then qty else 0) := by
  simp only [HourlyBar.AddTrade]
  split_ifs <;> first | rfl | (simp only []; ring)

theorem AddTrade_SellVol (b : HourlyBar) (price qty : ℚ) (isBuy : Bool) (minute : ℕ)
    (w99 w999 : Bool) :
    (b.AddTrade price qty isBuy minute w99 w999).SellVol =
      b.SellVol + (if isBuy then 0 else qty) := by
  simp only [HourlyBar.AddTrade]
  split_ifs <;> first | rfl | (simp only []; ring)

theorem AddTrade_VolFirst30Min (b : HourlyBar) (price qty : ℚ) (isBuy : Bool)
    (minute : ℕ) (w99 w999 : Bool) :
    (b.AddTrade price qty isBuy minute w99 w999).VolFirst30Min =
      b.VolFirst30Min + (if minute < 30 then qty else 0) := by
  simp only [HourlyBar.AddTrade]
  split_ifs <;> first | rfl | (simp only []; ring)

theorem AddTrade_VolLast30Min (b : HourlyBar) (price qty : ℚ) (isBuy : Bool)
    (minute : ℕ) (w99 w999 : Bool) :
    (b.AddTrade price qty isBuy minute w99 w999).VolLast30Min =
      b.VolLast30Min + (if minute < 30 then 0 else qty) := by
  simp only [HourlyBar.AddTrade]
  split_ifs <;> first | rfl | (simp only []; ring)

theorem AddTrade_WhaleBuyCountP99 (b : HourlyBar) (price qty : ℚ) (isBuy : Bool)
    (minute : ℕ) (w99 w999 : Bool) :
    (b.AddTrade price qty isBuy minute w99 w999).WhaleBuyCountP99 =
      b.WhaleBuyCountP99 + (if w99 ∧ isBuy then 1 else 0) := by
  simp only [HourlyBar.AddTrade]
  split_ifs <;> simp_all

theorem AddTrade_WhaleSellCountP99 (b : HourlyBar) (price qty : ℚ) (isBuy : Bool)
    (minute : ℕ) (w99 w999 : Bool) :
    (b.AddTrade price qty isBuy minute w99 w999).WhaleSellCountP99 =
      b.WhaleSellCountP99 + (if w99 ∧ ¬ isBuy = true then 1 else 0) := by
  simp only [HourlyBar.AddTrade]
  split_ifs <;> simp_all

theorem AddTrade_WhaleBuyCountP999 (b : HourlyBar) (price qty : ℚ) (isBuy : Bool)
    (minute : ℕ) (w99 w999 : Bool) :
    (b.AddTrade price qty isBuy minute w99 w999).WhaleBuyCountP999 =
      b.WhaleBuyCountP999 + (if w999 ∧ isBuy then 1 else 0) := by
  simp only [HourlyBar.AddTrade]
  split_ifs <;> simp_all

theorem AddTrade_WhaleSellCountP999 (b : HourlyBar) (price qty : ℚ) (isBuy : Bool)
    (minute : ℕ) (w99 w999 : Bool) :
    (b.AddTrade price qty isBuy minute w99 w999).WhaleSellCountP999 =
      b.WhaleSellCountP999 + (if w999 ∧ ¬ isBuy = true then 1 else 0) := by
  simp only [HourlyBar.AddTrade]
  split_ifs <;> simp_all

theorem addTrade_conservation (b : HourlyBar) (price qty : ℚ) (isBuy : Bool)
    (minute : ℕ) (w99 w999 : Bool)
    (h1 : b.NTrades = b.BuyCount + b.SellCount)
    (h2 : b.VolFirst30Min + b.VolLast30Min = b.BuyVol + b.SellVol) :
    (b.AddTrade price qty isBuy minute w99 w999).NTrades =
      (b.AddTrade price qty isBuy minute w99 w999).BuyCount +
        (b.AddTrade price qty isBuy minute w99 w999).SellCount ∧
    (b.AddTrade price qty isBuy minute w99 w999).VolFirst30Min +
        (b.AddTrade price qty isBuy minute w99 w999).VolLast30Min =
      (b.AddTrade price qty isBuy minute w99 w999).BuyVol +
        (b.AddTrade price qty isBuy minute w99 w999).SellVol := by
  rw [AddTrade_NTrades, AddTrade_BuyCount, AddTrade_SellCount, AddTrade_BuyVol,
    AddTrade_SellVol, AddTrade_VolFirst30Min, AddTrade_VolLast30Min]
  constructor
  · cases isBuy <;> simp <;> omega
  · rcases Nat.lt_or_ge minute 30 with hm | hm <;> cases isBuy <;>
      simp [hm, Nat.not_lt_of_ge] <;> linarith

/-- C3: for every hourly bar built from the zero bar by any sequence of
`AddTrade` calls, `n_trades = buy_count + sell_count` and
`vol_first_30min + vol_last_30min = buy_vol + sell_vol` (each trade's quantity
enters exactly one accumulator of each pair; volumes are modelled as exact
rationals). -/
theorem hourlyBar_count_volume_conservation (ts : List TradeInput) :
    (buildBar ts).NTrades = (buildBar ts).BuyCount + (buildBar ts).SellCount ∧
    (buildBar ts).VolFirst30Min + (buildBar ts).VolLast30Min =
      (buildBar ts).BuyVol + (buildBar ts).SellVol := by
  suffices h : ∀ b : HourlyBar,
      b.NTrades = b.BuyCount + b.SellCount →
      b.VolFirst30Min + b.VolLast30Min = b.BuyVol + b.SellVol →
      (ts.foldl
          (fun b t => b.AddTrade t.price t.qty t.isBuy t.minute t.isWhaleP99 t.isWhaleP999)
          b).NTrades =
        (ts.foldl
            (fun b t => b.AddTrade t.price t.qty t.isBuy t.minute t.isWhaleP99 t.isWhaleP999)
            b).BuyCount +
          (ts.foldl
              (fun b t => b.AddTrade t.price t.qty t.isBuy t.minute t.isWhaleP99 t.isWhaleP999)
              b).SellCount ∧
      (ts.foldl
          (fun b t => b.AddTrade t.price t.qty t.isBuy t.minute t.isWhaleP99 t.isWhaleP999)
          b).VolFirst30Min +
          (ts.foldl
              (fun b t => b.AddTrade t.price t.qty t.isBuy t.minute t.isWhaleP99 t.isWhaleP999)
              b).VolLast30Min =
        (ts.foldl
            (fun b t => b.AddTrade t.price t.qty t.isBuy t.minute t.isWhaleP99 t.isWhaleP999)
            b).BuyVol +
          (ts.foldl
              (fun b t => b.AddTrade t.price t.qty t.isBuy t.minute t.isWhaleP99 t.isWhaleP999)
              b).SellVol by
    exact h NewHourlyBar rfl (by simp [NewHourlyBar])
  induction ts with
  | nil => exact fun b h1 h2 => ⟨h1, h2⟩
  | cons t rest ih =>
    intro b h1 h2
    rw [List.foldl_cons]
    have hstep := addTrade_conservation b t.price t.qty t.isBuy t.minute
      t.isWhaleP99 t.isWhaleP999 h1 h2
    exact ih _ hstep.1 hstep.2

end Aggregator

namespace Whale

/-- `Classification` from the `whale` package detector. -/
structure Classification where
  IsWhaleP99 : Bool
  IsWhaleP999 : Bool

/-- `Detector.Classify` as a function of the thresholds in force for the
trade's date: `IsWhaleP99 ⟺ qty ≥ P99` and `IsWhaleP999 ⟺ qty ≥ P999`. -/
def classifyWith (t : Thresholds) (qty : ℚ) : Classification :=
  { IsWhaleP99 := decide (t.P99 ≤ qty), IsWhaleP999 := decide (t.P999 ≤ qty) }

theorem classifyWith_implies {t : Thresholds} (ht : t.P99 ≤ t.P999) (qty : ℚ) :
    (classifyWith t qty).IsWhaleP999 = true → (classifyWith t qty).IsWhaleP99 = true := by
  simp only [classifyWith, decide_eq_true_eq]
  intro h
  exact le_trans ht h

end Whale

namespace Aggregator

/-- A trade as the aggregator's second pass sees it: date (for the threshold
lookup), price, quantity, the venue's buyer-maker flag and the minute within
the hour.  `isBuy = ¬ isBuyerMaker`. -/
structure TradeC where
  date : Whale.Date
  price : ℚ
  qty : ℚ
  isBuyerMaker : Bool
  minute : ℕ

/-- The classify-and-fold step of `Aggregator.ProcessTrades` (second pass),
restricted to the trades of one hour bar: whale flags come from
`Detector.Classify` with the per-date thresholds `thr`. -/
def processBarTrades (thr : Whale.Date → Whale.Thresholds) (ts : List TradeC) :
    HourlyBar :=
  ts.foldl
    (fun b t =>
      let c := Whale.classifyWith (thr t.date) t.qty
      b.AddTrade t.price t.qty (!t.isBuyerMaker) t.minute c.IsWhaleP99 c.IsWhaleP999)
    NewHourlyBar

theorem addTrade_whale_bounds (b : HourlyBar) (price qty : ℚ) (isBuy : Bool)
    (minute : ℕ) (w99 w999 : Bool) (hflag : w999 = true → w99 = true)
    (h₁ : b.WhaleBuyCountP999 ≤ b.WhaleBuyCountP99)
    (h₂ : b.WhaleBuyCountP99 ≤ b.BuyCount)
    (h₃ : b.WhaleSellCountP999 ≤ b.WhaleSellCountP99)
    (h₄ : b.WhaleSellCountP99 ≤ b.SellCount) :
    (b.AddTrade price qty isBuy minute w99 w999).WhaleBuyCountP999 ≤
      (b.AddTrade price qty isBuy minute w99 w999).WhaleBuyCountP99 ∧
    (b.AddTrade price qty isBuy minute w99 w999).WhaleBuyCountP99 ≤
      (b.AddTrade price qty isBuy minute w99 w999).BuyCount ∧
    (b.AddTrade price qty isBuy minute w99 w999).WhaleSellCountP999 ≤
      (b.AddTrade price qty isBuy minute w99 w999).WhaleSellCountP99 ∧
    (b.AddTrade price qty isBuy minute w99 w999).WhaleSellCountP99 ≤
      (b.AddTrade price qty isBuy minute w99 w999).SellCount := by
  rw [AddTrade_WhaleBuyCountP999, AddTrade_WhaleBuyCountP99, AddTrade_BuyCount,
    AddTrade_WhaleSellCountP999, AddTrade_WhaleSellCountP99, AddTrade_SellCount]
  cases w99 <;> cases w999 <;> cases isBuy <;> simp_all <;> omega

theorem fold_whale_bounds (thr : Whale.Date → Whale.Thresholds)
    (hthr : ∀ d, (thr d).P99 ≤ (thr d).P999) :
    ∀ (ts : List TradeC) (b : HourlyBar),
      b.WhaleBuyCountP999 ≤ b.WhaleBuyCountP99 → b.WhaleBuyCountP99 ≤ b.BuyCount →
      b.WhaleSellCountP999 ≤ b.WhaleSellCountP99 → b.WhaleSellCountP99 ≤ b.SellCount →
      (ts.foldl
          (fun b t =>
            let c := Whale.classifyWith (thr t.date) t.qty
            b.AddTrade t.price t.qty (!t.isBuyerMaker) t.minute c.IsWhaleP99 c.IsWhaleP999)
          b).WhaleBuyCountP999 ≤
        (ts.foldl
            (fun b t =>
              let c := Whale.classifyWith (thr t.date) t.qty
              b.AddTrade t.price t.qty (!t.isBuyerMaker) t.minute c.IsWhaleP99 c.IsWhaleP999)
            b).WhaleBuyCountP99 ∧
      (ts.foldl
          (fun b t =>
            let c := Whale.classifyWith (thr t.date) t.qty
            b.AddTrade t.price t.qty (!t.isBuyerMaker) t.minute c.IsWhaleP99 c.IsWhaleP999)
          b).WhaleBuyCountP99 ≤
        (ts.foldl
            (fun b t =>
              let c := Whale.classifyWith (thr t.date) t.qty
              b.AddTrade t.price t.qty (!t.isBuyerMaker) t.minute c.IsWhaleP99 c.IsWhaleP999)
            b).BuyCount ∧
      (ts.foldl
          (fun b t =>
            let c := Whale.classifyWith (thr t.date) t.qty
            b.AddTrade t.price t.qty (!t.isBuyerMaker) t.minute c.IsWhaleP99 c.IsWhaleP999)
          b).WhaleSellCountP999 ≤
        (ts.foldl
            (fun b t =>
              let c := Whale.classifyWith (thr t.date) t.qty
              b.AddTrade t.price t.qty (!t.isBuyerMaker) t.minute c.IsWhaleP99 c.IsWhaleP999)
            b).WhaleSellCountP99 ∧
      (ts.foldl
          (fun b t =>
            let c := Whale.classifyWith (thr t.date) t.qty
            b.AddTrade t.price t.qty (!t.isBuyerMaker) t.minute c.IsWhaleP99 c.IsWhaleP999)
          b).WhaleSellCountP99 ≤
        (ts.foldl
            (fun b t =>
              let c := Whale.classifyWith (thr t.date) t.qty
              b.AddTrade t.price t.qty (!t.isBuyerMaker) t.minute c.IsWhaleP99 c.IsWhaleP999)
            b).SellCount
  | [], b, h₁, h₂, h₃, h₄ => ⟨h₁, h₂, h₃, h₄⟩
  | t :: rest, b, h₁, h₂, h₃, h₄ => by
    rw [List.foldl_cons]
    have hstep := addTrade_whale_bounds b t.price t.qty (!t.isBuyerMaker) t.minute
      (Whale.classifyWith (thr t.date) t.qty).IsWhaleP99
      (Whale.classifyWith (thr t.date) t.qty).IsWhaleP999
      (Whale.classifyWith_implies (hthr t.date) t.qty) h₁ h₂ h₃ h₄
    exact fold_whale_bounds thr hthr rest _ hstep.1 hstep.2.1 hstep.2.2.1 hstep.2.2.2

/-- C4: for every hourly bar produced by folding classified trades through
`AddTrade`, with whale flags from `Detector.Classify` under per-date thresholds
satisfying `P99 ≤ P999`:
`whale_buy_count_p999 ≤ whale_buy_count_p99 ≤ buy_count` and likewise for the
sell side. -/
theorem whale_counts_ordered (thr : Whale.Date → Whale.Thresholds)
    (hthr : ∀ d, (thr d).P99 ≤ (thr d).P999) (ts : List TradeC) :
    (processBarTrades thr ts).WhaleBuyCountP999 ≤
        (processBarTrades thr ts).WhaleBuyCountP99 ∧
    (processBarTrades thr ts).WhaleBuyCountP99 ≤ (processBarTrades thr ts).BuyCount ∧
    (processBarTrades thr ts).WhaleSellCountP999 ≤
        (processBarTrades thr ts).WhaleSellCountP99 ∧
    (processBarTrades thr ts).WhaleSellCountP99 ≤ (processBarTrades thr ts).SellCount :=
  fold_whale_bounds thr hthr ts NewHourlyBar (Nat.le_refl _) (Nat.le_refl _)
    (Nat.le_refl _) (Nat.le_refl _)

theorem whale_counts_ordered_witness :
    (∀ d : Whale.Date, ((fun _ => Whale.DefaultThresholds) d).P99 ≤
        ((fun _ => Whale.DefaultThresholds) d).P999) ∧
    (processBarTrades (fun _ => Whale.DefaultThresholds)
          [⟨0, 30000, 6, false, 5⟩]).WhaleBuyCountP99 ≤
      (processBarTrades (fun _ => Whale.DefaultThresholds)
          [⟨0, 30000, 6, false, 5⟩]).BuyCount :=
  ⟨fun _ => by norm_num [Whale.DefaultThresholds],
    (whale_counts_ordered (fun _ => Whale.DefaultThresholds)
      (fun _ => by norm_num [Whale.DefaultThresholds]) [⟨0, 30000, 6, false, 5⟩]).2.1⟩

end Aggregator

namespace State

/-- `aggregator.HourlyResult`: a finalized bar with its hour timestamp.  The
timestamp is a whole-second UTC instant and is modelled by its Unix-seconds
value (`Time.Unix()` / `time.Unix(s, 0).UTC()` are mutually inverse on such
instants). -/
structure HourlyResult where
  Time : ℤ
  Bar : Aggregator.HourlyBar
deriving DecidableEq

/-- `SerializedBar` from `internal/state/state.go`: the 21 short-keyed JSON
fields (`t`, `bv`, `sv`, `nt`, `bc`, `sc`, `wbv99`, `wsv99`, `wbc99`, `wsc99`,
`wbv999`, `wsv999`, `wbc999`, `wsc999`, `vf30`, `vl30`, `bvu`, `svu`, `mts`,
`vwap`, `pstd`). -/
structure SerializedBar where
  Time : ℤ
  BuyVol : ℚ
  SellVol : ℚ
  NTrades : ℕ
  BuyCount : ℕ
  SellCount : ℕ
  WhaleBuyVolP99 : ℚ
  WhaleSellVolP99 : ℚ
  WhaleBuyCountP99 : ℕ
  WhaleSellCountP99 : ℕ
  WhaleBuyVolP999 : ℚ
  WhaleSellVolP999 : ℚ
  WhaleBuyCountP999 : ℕ
  WhaleSellCountP999 : ℕ
  VolFirst30Min : ℚ
  VolLast30Min : ℚ
  BuyVolUSD : ℚ
  SellVolUSD : ℚ
  MaxTradeSize : ℚ
  VWAP : ℚ
  PriceStd : ℚ
deriving DecidableEq

/-- `serializeBar` from `internal/state/state.go`. -/
def serializeBar (b : HourlyResult) : SerializedBar :=
  { Time := b.Time
    BuyVol := b.Bar.BuyVol
    SellVol := b.Bar.SellVol
    NTrades := b.Bar.NTrades
    BuyCount := b.Bar.BuyCount
    SellCount := b.Bar.SellCount
    WhaleBuyVolP99 := b.Bar.WhaleBuyVolP99
    WhaleSellVolP99 := b.Bar.WhaleSellVolP99
    WhaleBuyCountP99 := b.Bar.WhaleBuyCountP99
    WhaleSellCountP99 := b.Bar.WhaleSellCountP99
    WhaleBuyVolP999 := b.Bar.WhaleBuyVolP999
    WhaleSellVolP999 := b.Bar.WhaleSellVolP999
    WhaleBuyCountP999 := b.Bar.WhaleBuyCountP999
    WhaleSellCountP999 := b.Bar.WhaleSellCountP999
    VolFirst30Min := b.Bar.VolFirst30Min
    VolLast30Min := b.Bar.VolLast30Min
    BuyVolUSD := b.Bar.BuyVolUSD
    SellVolUSD := b.Bar.SellVolUSD
    MaxTradeSize := b.Bar.MaxTradeSize
    VWAP := b.Bar.VWAP
    PriceStd := b.Bar.PriceStd }

/-- `deserializeBar` from `internal/state/state.go`: rebuilds the bar; the
unexported running accumulators (`sumPriceQty`, `sumQty`, `sumPriceSqQty`) are
not serialized and come back as their zero values. -/
def deserializeBar (s : SerializedBar) : HourlyResult :=
  { Time := s.Time
    Bar :=
      { BuyVol := s.BuyVol
        SellVol := s.SellVol
        NTrades := s.NTrades
        BuyCount := s.BuyCount
        SellCount := s.SellCount
        WhaleBuyVolP99 := s.WhaleBuyVolP99
        WhaleSellVolP99 := s.WhaleSellVolP99
        WhaleBuyCountP99 := s.WhaleBuyCountP99
        WhaleSellCountP99 := s.WhaleSellCountP99
        WhaleBuyVolP999 := s.WhaleBuyVolP999
        WhaleSellVolP999 := s.WhaleSellVolP999
        WhaleBuyCountP999 := s.WhaleBuyCountP999
        WhaleSellCountP999 := s.WhaleSellCountP999
        VolFirst30Min := s.VolFirst30Min
        VolLast30Min := s.VolLast30Min
        BuyVolUSD := s.BuyVolUSD
        SellVolUSD := s.SellVolUSD
        MaxTradeSize := s.MaxTradeSize
        VWAP := s.VWAP
        PriceStd := s.PriceStd } }

/-- C10: for every finalized hourly result (whole-second UTC timestamp,
modelled by its Unix-seconds value), `deserializeBar (serializeBar b)`
reproduces the timestamp and all 21 serialized fields exactly; only the
unexported accumulators (Σpq, Σq, Σp²q) are reset to zero. -/
theorem serializeBar_roundTrip (b : HourlyResult) :
    deserializeBar (serializeBar b) =
      { Time := b.Time
        Bar := { b.Bar with sumPriceQty := 0, sumQty := 0, sumPriceSqQty := 0 } } :=
  rfl

end State

namespace Pipeline

/-- `state.State`'s persisted payload relevant to checkpoint completion
(`completed_months`; the `version` and `last_update` fields do not affect which
months are listed). -/
structure StateFile where
  completedMonths : List String
deriving DecidableEq

/-- The checkpoint directory as `saveCheckpoint` sees it: the per-month bars
files, `detector.json`, and `state.json`.  `atomicWrite` (write tmp, rename)
either replaces the target file or, on failure, leaves it unchanged — the
`ok…` flags of `saveCheckpoint` model each write's outcome. -/
structure Disk (β δ : Type) where
  barsFiles : String → Option β
  detectorFile : Option δ
  stateFile : Option StateFile

/-- `Pipeline.saveCheckpoint` (bars → detector → state): save the month's
bars, then the detector snapshot, then append the month to the in-memory
completed list and write `state.json` last.  Returns the updated disk, the
in-memory completed-months list, and whether the checkpoint succeeded (Go
returns an error where this model returns `false`). -/
def saveCheckpoint {β δ : Type} (disk : Disk β δ) (completed : List String)
    (month : String) (bars : β) (snap : δ) (okBars okDetector okState : Bool) :
    Disk β δ × List String × Bool :=
  if !okBars then (disk, completed, false)
  else
    let disk₁ : Disk β δ :=
      { disk with barsFiles := fun m => if m = month then some bars else disk.barsFiles m }
    if !okDetector then (disk₁, completed, false)
    else
      let disk₂ : Disk β δ := { disk₁ with detectorFile := some snap }
      let completed' := completed ++ [month]
      if !okState then (disk₂, completed', false)
      else ({ disk₂ with stateFile := some { completedMonths := completed' } },
        completed', true)

/-- The months the on-disk `state.json` lists as completed (none if absent). -/
def diskCompleted {β δ : Type} (d : Disk β δ) : List String :=
  match d.stateFile with
  | some st => st.completedMonths
  | none => []

/-- C2: `saveCheckpoint` writes bars, then the detector snapshot, and appends
the month and writes `state.json` last.  If the bars or detector write fails
it reports failure with the month not appended to the in-memory completed list
and `state.json` untouched on disk; on success all three files are written,
`state.json` last with the month appended.  Hence months newly listed as
completed on disk had both their bars file and the detector snapshot written
by this call. -/
theorem saveCheckpoint_marks_completed_last {β δ : Type} (disk : Disk β δ)
    (completed : List String) (month : String) (bars : β) (snap : δ)
    (okBars okDetector okState : Bool) :
    ((okBars = false ∨ okDetector = false) →
      (saveCheckpoint disk completed month bars snap okBars okDetector okState).2.2 =
          false ∧
      (saveCheckpoint disk completed month bars snap okBars okDetector okState).2.1 =
          completed ∧
      (saveCheckpoint disk completed month bars snap okBars okDetector okState).1.stateFile =
          disk.stateFile) ∧
    (okBars = false →
      (saveCheckpoint disk completed month bars snap okBars okDetector okState).1 = disk) ∧
    (okBars = true → okDetector = true → okState = true →
      (saveCheckpoint disk completed month bars snap okBars okDetector okState).1.barsFiles
          month = some bars ∧
      (saveCheckpoint disk completed month bars snap okBars okDetector okState).1.detectorFile =
          some snap ∧
      (saveCheckpoint disk completed month bars snap okBars okDetector okState).1.stateFile =
          some { completedMonths := completed ++ [month] } ∧
      (saveCheckpoint disk completed month bars snap okBars okDetector okState).2.2 = true) ∧
    (∀ m : String,
      m ∈ diskCompleted
          (saveCheckpoint disk completed month bars snap okBars okDetector okState).1 →
      m ∉ diskCompleted disk →
      (saveCheckpoint disk completed month bars snap okBars okDetector okState).1.barsFiles
          month = some bars ∧
      (saveCheckpoint disk completed month bars snap okBars okDetector okState).1.detectorFile =
          some snap) := by
  cases okBars <;> cases okDetector <;> cases okState <;>
      simp [saveCheckpoint, diskCompleted] <;>
    exact fun m hm hnm => absurd hm hnm

/-- An empty checkpoint directory. -/
def emptyDisk : Disk ℕ ℕ :=
  { barsFiles := fun _ => none, detectorFile := none, stateFile := none }

theorem saveCheckpoint_marks_completed_last_witness :
    (true = true ∧ true = true ∧ true = true) ∧
    (saveCheckpoint emptyDisk [] "2020-01" 1 2 true true true).1.barsFiles "2020-01" =
        some 1 ∧
    (saveCheckpoint emptyDisk [] "2020-01" 1 2 true true true).1.detectorFile = some 2 ∧
    (saveCheckpoint emptyDisk [] "2020-01" 1 2 true true true).1.stateFile =
        some { completedMonths := [] ++ ["2020-01"] } ∧
    (saveCheckpoint emptyDisk [] "2020-01" 1 2 true true true).2.2 = true :=
  ⟨⟨rfl, rfl, rfl⟩,
    (saveCheckpoint_marks_completed_last emptyDisk [] "2020-01" 1 2 true true true).2.2.1
      rfl rfl rfl⟩

end Pipeline

end AggTrades
